import Mathlib

/-
Verification of the LV2 state store/retrieve protocol
(src/state/src/raw.rs: RawStoreHandle and RawRetrieveHandle).

The byte level is modelled with `List Nat`, each element a byte value;
machine integers are `Nat` with explicit reductions modulo 2^32 where
overflow matters.  Host callbacks are modelled as Lean functions; the
sequence of host store invocations performed by an operation is returned
explicitly as a log, so that theorems can speak about which calls
crossed the FFI boundary and with which arguments.
-/

namespace LV2State

/-- A URID is a nonzero 32-bit identifier obtained from the interning
facility; the core treats it as an opaque unique key.  Modelled as a
positive natural number (the `NonZeroU32` of the urid crate). -/
abbrev URID := { n : Nat // 0 < n }

/-- Modelled from the spec: the urid crate's `URID::new`, which returns
a valid identifier exactly when the raw integer is nonzero. -/
def URID.new (n : Nat) : Option URID :=
  if h : 0 < n then some ⟨n, h⟩ else none

/-- The raw integer value of a URID (`URID::get`). -/
def URID.get (u : URID) : Nat := u.val

/-- Little-endian 32-bit integer assembled from four bytes. -/
def leU32 (b0 b1 b2 b3 : Nat) : Nat :=
  b0 + 256 * b1 + 65536 * b2 + 16777216 * b3

/-- Little-endian encoding of a 32-bit value into four bytes. -/
def encodeLE32 (v : Nat) : List Nat :=
  [v % 256, v / 256 % 256, v / 65536 % 256, v / 16777216 % 256]

/-- The error taxonomy of the state crate (`StateErr`). `badCallback`:
the relevant host function pointer is absent.  `badData`: the drafted
buffer could not be parsed as a valid container.  The remaining kinds
are translations of the host callback's nonzero status codes. -/
inductive StateErr where
  | badCallback
  | badData
  | badType
  | badFlags
  | noFeature
  | noProperty
  | noSpace
  | unknown
deriving DecidableEq, Repr

/-- Modelled from the spec: the state crate's `StateErr::from`, which
maps the host store callback's raw integer status into the error
taxonomy; the zero/success sentinel maps to success and every other
sentinel maps to a named failure kind (LV2 status codes: 2 bad type,
3 bad flags, 4 no feature, 5 no property, 6 no space, anything else
unknown). -/
def stateErrFrom (status : Nat) : Except StateErr Unit :=
  match status with
  | 0 => .ok ()
  | 2 => .error .badType
  | 3 => .error .badFlags
  | 4 => .error .noFeature
  | 5 => .error .noProperty
  | 6 => .error .noSpace
  | _ => .error .unknown

/-- Modelled from the spec: the `LV2_STATE_IS_POD` flag bit of the sys
bindings, asserting the value is self-contained. -/
def LV2_STATE_IS_POD : Nat := 1

/-- Modelled from the spec: the `LV2_STATE_IS_PORTABLE` flag bit of the
sys bindings, asserting the value is portable across host instances. -/
def LV2_STATE_IS_PORTABLE : Nat := 2

/-- The argument tuple of one invocation of the host store callback:
raw integer key, the payload bytes the data pointer points at, the
reported byte length, the type identifier and the flag bitmask. -/
structure StoreArgs where
  key : Nat
  data : List Nat
  size : Nat
  type_ : Nat
  flags : Nat
deriving DecidableEq, Repr

/-- A host store callback: receives the argument tuple and returns the
raw integer status.  The opaque host context token is captured by the
closure, so it does not appear as an explicit argument. -/
def StoreFn := StoreArgs → Nat

/-- Modelled from the spec: parsing the atom container header
(`Space::split_type::<sys::LV2_Atom>`).  `LV2_Atom` is two consecutive
little-endian `u32` fields, `size` then `type`; parsing fails when
fewer than eight bytes are available.  Returns the declared size, the
declared type and the bytes following the header. -/
def splitAtomHeader (bytes : List Nat) : Option (Nat × Nat × List Nat) :=
  match bytes with
  | s0 :: s1 :: s2 :: s3 :: t0 :: t1 :: t2 :: t3 :: rest =>
      some (leU32 s0 s1 s2 s3, leU32 t0 t1 t2 t3, rest)
  | _ => none

/-- `RawStoreHandle::commit_pair`:  fails with `BadCallback` when the
host supplied no store function; otherwise serializes the drafted
buffer, parses the container header (`BadData` on failure), splits the
payload to the header-declared size (`BadData` when it exceeds the
available bytes), invokes the host store callback once with the key's
raw integer, the payload, its length, the declared type and the
POD-and-portable flag bitmask, and translates the returned status.
Returns the list of host store invocations performed together with the
result. -/
def commit_pair (store_fn : Option StoreFn) (key : URID) (space : List Nat) :
    List StoreArgs × Except StateErr Unit :=
  match store_fn with
  | none => ([], .error .badCallback)
  | some f =>
    match splitAtomHeader space with
    | none => ([], .error .badData)
    | some (size, type_, rest) =>
      if size ≤ rest.length then
        let args : StoreArgs :=
          { key := key.get, data := rest.take size, size := size, type_ := type_,
            flags := Nat.lor LV2_STATE_IS_POD LV2_STATE_IS_PORTABLE }
        ([args], stateErrFrom (f args))
      else ([], .error .badData)

/-- Look up the buffer drafted for a key
(`HashMap::get` on the properties mapping). -/
def lookupAssoc : List (URID × List Nat) → URID → Option (List Nat)
  | [], _ => none
  | p :: rest, k => if p.1 = k then some p.2 else lookupAssoc rest k

/-- Insert or replace the buffer drafted for a key
(`HashMap::insert` on the properties mapping). -/
def insertAssoc : List (URID × List Nat) → URID → List Nat → List (URID × List Nat)
  | [], k, v => [(k, v)]
  | p :: rest, k, v => if p.1 = k then (k, v) :: rest else p :: insertAssoc rest k v

/-- Remove the entry of a key (`HashMap::remove` on the properties
mapping, which holds at most one entry per key). -/
def removeAssoc : List (URID × List Nat) → URID → List (URID × List Nat)
  | [], _ => []
  | p :: rest, k => if p.1 = k then removeAssoc rest k else p :: removeAssoc rest k

/-- The store-side buffer `RawStoreHandle`: a mapping from property key
to drafted buffer (keys unique, order unspecified — modelled as an
association list) together with the optional host store callback.  The
opaque host context token is captured inside `store_fn`. -/
structure RawStoreHandle where
  properties : List (URID × List Nat)
  store_fn : Option StoreFn

/-- `RawStoreHandle::new`: a fresh handle with an empty mapping. -/
def RawStoreHandle.new (store_fn : Option StoreFn) : RawStoreHandle :=
  { properties := [], store_fn := store_fn }

/-- `StoreHandle::draft`: inserts (or replaces with) an empty drafted
buffer for the key.  The returned writer is modelled separately by
`appendDraft`. -/
def draft (h : RawStoreHandle) (key : URID) : RawStoreHandle :=
  { h with properties := insertAssoc h.properties key [] }

/-- Modelled from the spec: the `StatePropertyWriter` returned by
`draft`, through which the caller writes encoded bytes into the drafted
buffer of the key it was created for.  Appends to the current buffer;
a writer only exists for a drafted key, so an absent key is untouched. -/
def appendDraft (h : RawStoreHandle) (key : URID) (bytes : List Nat) : RawStoreHandle :=
  match lookupAssoc h.properties key with
  | some buf => { h with properties := insertAssoc h.properties key (buf ++ bytes) }
  | none => h

/-- `StoreHandle::commit`: removes and commits the drafted property of
the key if present; returns `none` when the key is not drafted.  The
second component of a `some` result carries the host-call log and the
commit outcome. -/
def commit (h : RawStoreHandle) (key : URID) :
    RawStoreHandle × Option (List StoreArgs × Except StateErr Unit) :=
  match lookupAssoc h.properties key with
  | none => (h, none)
  | some space =>
      ({ h with properties := removeAssoc h.properties key },
       some (commit_pair h.store_fn key space))

/-- The loop body of `commit_all` over the drained entries: commits
each property in order, stopping at the first error; `HashMap::drain`
removes every entry from the mapping even when iteration stops early
(the drain guard clears the remainder on drop), so the first component
(the surviving entries) is empty in the error branch as well.  Returns
the surviving entries, the concatenated host-call log and the result. -/
def commit_all_aux (store_fn : Option StoreFn) :
    List (URID × List Nat) → List (URID × List Nat) × List StoreArgs × Except StateErr Unit
  | [] => ([], [], .ok ())
  | (k, s) :: rest =>
    let step := commit_pair store_fn k s
    match step.2 with
    | .error e => ([], step.1, .error e)
    | .ok _ =>
      let next := commit_all_aux store_fn rest
      (next.1, step.1 ++ next.2.1, next.2.2)

/-- `StoreHandle::commit_all`: drains the properties mapping and
commits every drafted property, returning the first error
encountered. -/
def commit_all (h : RawStoreHandle) :
    RawStoreHandle × List StoreArgs × Except StateErr Unit :=
  let r := commit_all_aux h.store_fn h.properties
  ({ h with properties := r.1 }, r.2.1, r.2.2)

/-- `StoreHandle::discard`: removes a drafted property without
invoking the host. -/
def discard (h : RawStoreHandle) (key : URID) : RawStoreHandle :=
  { h with properties := removeAssoc h.properties key }

/-- `StoreHandle::discard_all`: clears the properties mapping without
invoking the host. -/
def discard_all (h : RawStoreHandle) : RawStoreHandle :=
  { h with properties := [] }

/-- What the host retrieve callback produces for one call: the memory
the returned data pointer points at (`none` models a null pointer,
`some m` the byte at each offset from the pointer), and the values it
wrote through the `size` and `type` out-parameters. -/
structure RetrieveResult where
  ptr : Option (Nat → Nat)
  size : Nat
  type_ : Nat

/-- A host retrieve callback: from the raw integer key to the returned
pointer and out-parameters.  The opaque host context token is captured
by the closure. -/
def RetrieveFn := Nat → RetrieveResult

/-- The retrieve-side handle `RawRetrieveHandle`: the optional host
retrieve callback; stateless otherwise. -/
structure RawRetrieveHandle where
  retrieve_fn : Option RetrieveFn

/-- The typed read view `StatePropertyReader`: a type identifier paired
with the byte range retrieved from the host. -/
structure StatePropertyReader where
  type_ : URID
  body : List Nat

/-- `RetrieveHandle::retrieve`: returns `none` when the host supplied
no retrieve function, when the reported type identifier is not a valid
interned identifier (zero), or when the host returns a null data
pointer; otherwise builds the byte slice of exactly the reported size
starting at the returned pointer and pairs it with the reported type. -/
def retrieve (h : RawRetrieveHandle) (key : URID) : Option StatePropertyReader :=
  match h.retrieve_fn with
  | none => none
  | some f =>
    let r := f key.get
    match URID.new r.type_ with
    | none => none
    | some t =>
      match r.ptr with
      | none => none
      | some mem => some { type_ := t, body := (List.range r.size).map mem }

/-- Modelled from the spec: the encoded form a draft holds after the
caller writes a primitive 32-bit numeric value through the atom
writer — the self-describing container header declaring byte size 4
and the value's type identifier, followed by exactly those four payload
bytes (the little-endian pattern of the value). -/
def atomInt (type_ : Nat) (v : Nat) : List Nat :=
  encodeLE32 4 ++ encodeLE32 type_ ++ encodeLE32 v

/-- Modelled from the spec: decoding a typed read view as a primitive
32-bit numeric value — the reader checks the view's type identifier
against the expected one and reads the little-endian 32-bit pattern
from the body, failing when fewer than four bytes are present. -/
def readInt (r : StatePropertyReader) (expected : URID) : Option Nat :=
  if r.type_ = expected then
    match r.body with
    | b0 :: b1 :: b2 :: b3 :: _ => some (leU32 b0 b1 b2 b3)
    | _ => none
  else none

/-- A recording host's storage: key to (type identifier, payload
bytes), as in the test harness `Storage`. -/
def HostStorage := List (Nat × Nat × List Nat)

/-- Insert or replace a recorded triple in host storage. -/
def insertStorage : HostStorage → Nat → Nat × List Nat → HostStorage
  | [], k, v => [(k, v)]
  | p :: rest, k, v => if p.1 = k then (k, v) :: rest else p :: insertStorage rest k v

/-- Look up a recorded triple in host storage. -/
def lookupStorage : HostStorage → Nat → Option (Nat × List Nat)
  | [], _ => none
  | p :: rest, k => if p.1 = k then some p.2 else lookupStorage rest k

/-- Replay a host-call log against a recording host's storage: each
store invocation records its (key, type, bytes) triple. -/
def applyLog (st : HostStorage) (log : List StoreArgs) : HostStorage :=
  log.foldl (fun st a => insertStorage st a.key (a.type_, a.data)) st

/-- The retrieve callback of a recording host: returns the recorded
bytes and type verbatim, and a null pointer on a missing key. -/
def hostRetrieveFn (st : HostStorage) : RetrieveFn :=
  fun k =>
    match lookupStorage st k with
    | some (t, bytes) =>
        { ptr := some (fun i => bytes.getD i 0), size := bytes.length, type_ := t }
    | none => { ptr := none, size := 0, type_ := 0 }

/-! ### Helper lemmas about the association-list model of the mapping -/

theorem lookup_insertAssoc_self (props : List (URID × List Nat)) (k : URID) (v : List Nat) :
    lookupAssoc (insertAssoc props k v) k = some v := by
  induction props with
  | nil => simp [insertAssoc, lookupAssoc]
  | cons p rest ih =>
    by_cases h : p.1 = k
    · simp [insertAssoc, lookupAssoc, h]
    · simp [insertAssoc, lookupAssoc, h, ih]

theorem lookup_insertAssoc_ne (props : List (URID × List Nat)) (k k' : URID) (v : List Nat)
    (h : k' ≠ k) : lookupAssoc (insertAssoc props k' v) k = lookupAssoc props k := by
  induction props with
  | nil => simp [insertAssoc, lookupAssoc, h]
  | cons p rest ih =>
    by_cases hp : p.1 = k'
    · simp [insertAssoc, lookupAssoc, hp, h]
    · simp only [insertAssoc, lookupAssoc, hp, if_neg hp]
      by_cases hk : p.1 = k
      · simp [lookupAssoc, hk]
      · simp [lookupAssoc, hk, ih]

theorem lookup_removeAssoc_self (props : List (URID × List Nat)) (k : URID) :
    lookupAssoc (removeAssoc props k) k = none := by
  induction props with
  | nil => simp [removeAssoc, lookupAssoc]
  | cons p rest ih =>
    by_cases h : p.1 = k
    · simp [removeAssoc, h, ih]
    · simp [removeAssoc, lookupAssoc, h, ih]

theorem lookup_removeAssoc_ne (props : List (URID × List Nat)) (k k' : URID) (h : k' ≠ k) :
    lookupAssoc (removeAssoc props k') k = lookupAssoc props k := by
  induction props with
  | nil => simp [removeAssoc]
  | cons p rest ih =>
    by_cases hp : p.1 = k'
    · simp [removeAssoc, lookupAssoc, hp, h, ih]
    · simp [removeAssoc, lookupAssoc, hp, ih]

theorem insertAssoc_insertAssoc (props : List (URID × List Nat)) (k : URID) (v w : List Nat) :
    insertAssoc (insertAssoc props k v) k w = insertAssoc props k w := by
  induction props with
  | nil => simp [insertAssoc]
  | cons p rest ih =>
    by_cases h : p.1 = k
    · simp [insertAssoc, h]
    · simp [insertAssoc, h, ih]

theorem commit_all_aux_fst (fn : Option StoreFn) (props : List (URID × List Nat)) :
    (commit_all_aux fn props).1 = [] := by
  induction props with
  | nil => rfl
  | cons p rest ih =>
    obtain ⟨k, s⟩ := p
    simp only [commit_all_aux]
    cases hr : (commit_pair fn k s).2 with
    | error e => simp
    | ok u => simpa using ih

/-! ### Claim theorems -/

/-- Claim C10: after `commit_all` returns, whether with success or an
error, the properties mapping is empty — draining removes even the
drafts whose commit was never attempted, so no draft survives a failed
`commit_all` for later retry. -/
theorem commit_all_empties_mapping (h : RawStoreHandle) :
    (commit_all h).1.properties = [] ∧
    ∀ k, lookupAssoc (commit_all h).1.properties k = none := by
  have hfst : (commit_all h).1.properties = (commit_all_aux h.store_fn h.properties).1 := rfl
  rw [hfst, commit_all_aux_fst]
  exact ⟨rfl, fun k => rfl⟩

/-- Claim C7: `commit` returns `none`, distinct from success, exactly
when the key is not currently drafted; otherwise it removes the key's
draft from the mapping and returns `some` of the commit result. -/
theorem commit_removes_iff_drafted (h : RawStoreHandle) (key : URID) :
    (lookupAssoc h.properties key = none → commit h key = (h, none)) ∧
    (∀ space, lookupAssoc h.properties key = some space →
      commit h key = ({ h with properties := removeAssoc h.properties key },
                      some (commit_pair h.store_fn key space))) := by
  constructor
  · intro hnone
    simp [commit, hnone]
  · intro space hsome
    simp [commit, hsome]

/-- Claim C7 witness: committing a never-drafted key on a fresh handle
returns `none`. -/
theorem commit_removes_iff_drafted_witness :
    commit (RawStoreHandle.new none) ⟨1, Nat.one_pos⟩ = (RawStoreHandle.new none, none) :=
  (commit_removes_iff_drafted (RawStoreHandle.new none) ⟨1, Nat.one_pos⟩).1 rfl

/-- Claim C4: with an absent store function every commit of a drafted
key fails with `BadCallback`, the failure is decided before any other
work (no host call is logged, for every buffer, even one that could
not be parsed), and the draft is still removed from the mapping. -/
theorem commit_badCallback_before_work (h : RawStoreHandle) (key : URID) (space : List Nat)
    (hfn : h.store_fn = none) (hk : lookupAssoc h.properties key = some space) :
    commit h key = ({ h with properties := removeAssoc h.properties key },
                    some ([], .error .badCallback)) ∧
    lookupAssoc ((commit h key).1).properties key = none ∧
    (∀ s : List Nat, commit_pair h.store_fn key s = ([], .error .badCallback)) := by
  have hpair : ∀ s : List Nat, commit_pair h.store_fn key s = ([], .error .badCallback) := by
    intro s
    simp [commit_pair, hfn]
  have hc : commit h key = ({ h with properties := removeAssoc h.properties key },
      some ([], .error .badCallback)) := by
    simp [commit, hk, hpair]
  refine ⟨hc, ?_, hpair⟩
  rw [hc]
  exact lookup_removeAssoc_self h.properties key

/-- Claim C4 witness: on a handle with a null store callback and key 1
drafted with an empty buffer, commit fails with `BadCallback` and key 1
is removed. -/
theorem commit_badCallback_before_work_witness :
    commit ⟨[(⟨1, Nat.one_pos⟩, [])], none⟩ ⟨1, Nat.one_pos⟩ =
      (⟨[], none⟩, some ([], .error .badCallback)) ∧
    lookupAssoc ((commit ⟨[(⟨1, Nat.one_pos⟩, [])], none⟩ ⟨1, Nat.one_pos⟩).1).properties
      ⟨1, Nat.one_pos⟩ = none := by
  have h := commit_badCallback_before_work ⟨[(⟨1, Nat.one_pos⟩, [])], none⟩ ⟨1, Nat.one_pos⟩ []
    rfl (by simp [lookupAssoc])
  refine ⟨?_, h.2.1⟩
  rw [h.1]
  rfl

/-- Claim C5: when the drafted bytes cannot be parsed as a container
header, or the header-declared size exceeds the bytes available after
the header, the commit validator fails with `BadData` and the host
store callback is not invoked (the host-call log is empty). -/
theorem commit_pair_badData_no_host_call (f : StoreFn) (key : URID) (space : List Nat) :
    (splitAtomHeader space = none →
      commit_pair (some f) key space = ([], .error .badData)) ∧
    (∀ size type_ rest, splitAtomHeader space = some (size, type_, rest) →
      rest.length < size →
      commit_pair (some f) key space = ([], .error .badData)) := by
  constructor
  · intro hn
    simp [commit_pair, hn]
  · intro size type_ rest hs hlt
    have : ¬ size ≤ rest.length := by omega
    simp [commit_pair, hs, this]

/-- Claim C5 witness: a one-byte buffer has no parseable header, and a
parseable header declaring size 5 over a four-byte payload overflows;
both fail with `BadData` and an empty host-call log. -/
theorem commit_pair_badData_no_host_call_witness :
    commit_pair (some (fun _ => 0)) ⟨1, Nat.one_pos⟩ [7] = ([], .error .badData) ∧
    commit_pair (some (fun _ => 0)) ⟨1, Nat.one_pos⟩
      ([5, 0, 0, 0] ++ [9, 0, 0, 0] ++ [1, 2, 3, 4]) = ([], .error .badData) := by
  constructor
  · exact (commit_pair_badData_no_host_call (fun _ => 0) ⟨1, Nat.one_pos⟩ [7]).1 rfl
  · exact (commit_pair_badData_no_host_call (fun _ => 0) ⟨1, Nat.one_pos⟩ _).2
      5 9 [1, 2, 3, 4] (by simp [splitAtomHeader, leU32]) (by simp)

/-- Claim C6: on a commit that reaches the host, the store callback is
invoked exactly once, with the raw integer key, a pointer to the
payload bytes following the header, a payload length equal to the
header-declared size, the header's declared type identifier, and a
flag bitmask in which exactly the POD and portable bits are set. -/
theorem commit_pair_invokes_host_once (f : StoreFn) (key : URID) (space : List Nat)
    (size type_ : Nat) (rest : List Nat)
    (hdr : splitAtomHeader space = some (size, type_, rest))
    (hsz : size ≤ rest.length) :
    commit_pair (some f) key space =
      ([{ key := key.get, data := rest.take size, size := size, type_ := type_,
          flags := Nat.lor LV2_STATE_IS_POD LV2_STATE_IS_PORTABLE }],
       stateErrFrom
         (f { key := key.get, data := rest.take size, size := size, type_ := type_,
              flags := Nat.lor LV2_STATE_IS_POD LV2_STATE_IS_PORTABLE })) ∧
    Nat.lor LV2_STATE_IS_POD LV2_STATE_IS_PORTABLE = 3 ∧
    (rest.take size).length = size := by
  refine ⟨?_, by decide, ?_⟩
  · simp [commit_pair, hdr, hsz]
  · simp [List.length_take]
    omega

/-- Claim C6 witness: committing a well-formed four-byte integer
container at key 2 invokes the recording host exactly once with payload
`[17, 0, 0, 0]`, size 4, type 5 and flags 3. -/
theorem commit_pair_invokes_host_once_witness :
    commit_pair (some (fun _ => 0)) ⟨2, Nat.zero_lt_two⟩ (atomInt 5 17) =
      ([{ key := 2, data := [17, 0, 0, 0], size := 4, type_ := 5, flags := 3 }],
       Except.ok ()) ∧
    Nat.lor LV2_STATE_IS_POD LV2_STATE_IS_PORTABLE = 3 := by
  have h := commit_pair_invokes_host_once (fun _ => 0) ⟨2, Nat.zero_lt_two⟩ (atomInt 5 17)
    4 5 (encodeLE32 17) (by simp [atomInt, splitAtomHeader, encodeLE32, leU32]) (by simp [encodeLE32])
  refine ⟨?_, h.2.1⟩
  rw [h.1]
  simp [URID.get, encodeLE32, stateErrFrom, h.2.1]

/-- Claim C8: drafting a key a second time before committing replaces
the first draft's buffer entirely with a fresh empty one, so a
subsequent commit sends only the second draft's bytes to the host. -/
theorem second_draft_replaces_first (h : RawStoreHandle) (key : URID) (b1 b2 : List Nat) :
    appendDraft (draft (appendDraft (draft h key) key b1) key) key b2 =
      { h with properties := insertAssoc h.properties key b2 } ∧
    (commit (appendDraft (draft (appendDraft (draft h key) key b1) key) key b2) key).2 =
      some (commit_pair h.store_fn key b2) := by
  have h1 : appendDraft (draft h key) key b1 =
      { h with properties := insertAssoc h.properties key b1 } := by
    simp [draft, appendDraft, lookup_insertAssoc_self, insertAssoc_insertAssoc]
  have h2 : appendDraft (draft { h with properties := insertAssoc h.properties key b1 } key)
      key b2 = { h with properties := insertAssoc h.properties key b2 } := by
    simp [draft, appendDraft, lookup_insertAssoc_self, insertAssoc_insertAssoc]
  rw [h1, h2]
  exact ⟨rfl, by simp [commit, lookup_insertAssoc_self]⟩

/-- Claim C3: `retrieve` returns `none` exactly when the host supplied
no retrieve function, the host returns a null data pointer, or the
reported type identifier is zero; otherwise the typed read view carries
the host-reported type and a byte range of exactly the host-reported
size starting at the host-reported pointer. -/
theorem retrieve_none_iff (h : RawRetrieveHandle) (key : URID) :
    (retrieve h key = none ↔
      h.retrieve_fn = none ∨
      ∃ f, h.retrieve_fn = some f ∧ ((f key.get).ptr = none ∨ (f key.get).type_ = 0)) ∧
    (∀ (f : RetrieveFn) (mem : Nat → Nat) (ht : 0 < (f key.get).type_),
      h.retrieve_fn = some f → (f key.get).ptr = some mem →
      retrieve h key =
        some { type_ := ⟨(f key.get).type_, ht⟩,
               body := (List.range (f key.get).size).map mem } ∧
      ((List.range (f key.get).size).map mem).length = (f key.get).size) := by
  constructor
  · cases hf : h.retrieve_fn with
    | none => simp [retrieve, hf]
    | some f =>
      by_cases ht : (f key.get).type_ = 0
      · simp [retrieve, hf, URID.new, ht]
      · have hlt : 0 < (f key.get).type_ := Nat.pos_of_ne_zero ht
        cases hp : (f key.get).ptr with
        | none => simp [retrieve, hf, URID.new, hp, ht, hlt]
        | some mem => simp [retrieve, hf, URID.new, hp, ht, hlt]
  · intro f mem ht hf hp
    refine ⟨?_, by simp⟩
    simp [retrieve, hf, URID.new, hp, ht]

/-- Claim C3 witness: a host reporting pointer memory `9` at every
offset, size 2 and type 7 yields a read view of type 7 with exactly the
two bytes `[9, 9]`. -/
theorem retrieve_none_iff_witness :
    retrieve ⟨some (fun _ => { ptr := some (fun _ => 9), size := 2, type_ := 7 })⟩
        ⟨1, Nat.one_pos⟩ =
      some { type_ := ⟨7, by decide⟩, body := [9, 9] } := by
  have h := (retrieve_none_iff
      ⟨some (fun _ => { ptr := some (fun _ => 9), size := 2, type_ := 7 })⟩ ⟨1, Nat.one_pos⟩).2
    (fun _ => { ptr := some (fun _ => 9), size := 2, type_ := 7 }) (fun _ => 9)
    (by decide) rfl rfl
  rw [h.1]
  rfl

/-- The operations a caller can perform on a store handle during a
save session: drafting a key, writing bytes into a draft through its
writer, committing one key or all, and discarding one key or all. -/
inductive Op where
  | draftOp (k : URID)
  | writeOp (k : URID) (bytes : List Nat)
  | commitOp (k : URID)
  | commitAllOp
  | discardOp (k : URID)
  | discardAllOp

/-- Run one operation against the store handle, keeping the resulting
handle state. -/
def runOp (h : RawStoreHandle) : Op → RawStoreHandle
  | .draftOp k => draft h k
  | .writeOp k b => appendDraft h k b
  | .commitOp k => (commit h k).1
  | .commitAllOp => (commit_all h).1
  | .discardOp k => discard h k
  | .discardAllOp => discard_all h

/-- Run a sequence of operations against the store handle. -/
def runOps (h : RawStoreHandle) (ops : List Op) : RawStoreHandle :=
  ops.foldl runOp h

/-- One step of the specification-level presence bit of a key: set by
drafting it, cleared by committing or discarding it (or everything),
untouched by writes. -/
def liveStep (k : URID) (b : Bool) : Op → Bool
  | .draftOp kp => if kp = k then true else b
  | .writeOp _ _ => b
  | .commitOp kp => if kp = k then false else b
  | .commitAllOp => false
  | .discardOp kp => if kp = k then false else b
  | .discardAllOp => false

/-- A key has been drafted and not since committed or discarded, read
off the operation trace alone. -/
def draftedLive (k : URID) (ops : List Op) : Bool :=
  ops.foldl (liveStep k) false

theorem presence_runOp (h : RawStoreHandle) (op : Op) (k : URID) :
    (lookupAssoc (runOp h op).properties k).isSome =
      liveStep k ((lookupAssoc h.properties k).isSome) op := by
  cases op with
  | draftOp kp =>
    by_cases hk : kp = k
    · subst hk; simp [runOp, draft, liveStep, lookup_insertAssoc_self]
    · simp [runOp, draft, liveStep, hk, lookup_insertAssoc_ne _ _ _ _ hk]
  | writeOp kp b =>
    simp only [runOp, liveStep]
    cases hl : lookupAssoc h.properties kp with
    | none => simp [appendDraft, hl]
    | some buf =>
      by_cases hk : kp = k
      · subst hk; simp [appendDraft, hl, lookup_insertAssoc_self]
      · simp [appendDraft, hl, lookup_insertAssoc_ne _ _ _ _ hk]
  | commitOp kp =>
    simp only [runOp, liveStep]
    cases hl : lookupAssoc h.properties kp with
    | none =>
      have hh : (commit h kp).1 = h := by simp [commit, hl]
      rw [hh]
      by_cases hk : kp = k
      · subst hk; simp [hl]
      · simp [hk]
    | some buf =>
      have hh : (commit h kp).1 = { h with properties := removeAssoc h.properties kp } := by
        simp [commit, hl]
      rw [hh]
      by_cases hk : kp = k
      · subst hk; simp [lookup_removeAssoc_self]
      · simp [hk, lookup_removeAssoc_ne _ _ _ hk]
  | commitAllOp =>
    simp only [runOp, liveStep]
    have hh : (commit_all h).1.properties = [] := commit_all_aux_fst h.store_fn h.properties
    rw [hh]
    simp [lookupAssoc]
  | discardOp kp =>
    simp only [runOp, liveStep, discard]
    by_cases hk : kp = k
    · subst hk; simp [lookup_removeAssoc_self]
    · simp [hk, lookup_removeAssoc_ne _ _ _ hk]
  | discardAllOp =>
    simp [runOp, liveStep, discard_all, lookupAssoc]

theorem runOps_presence (ops : List Op) : ∀ (h : RawStoreHandle) (k : URID),
    (lookupAssoc (runOps h ops).properties k).isSome =
      ops.foldl (liveStep k) ((lookupAssoc h.properties k).isSome) := by
  induction ops with
  | nil => intro h k; rfl
  | cons op rest ih =>
    intro h k
    show (lookupAssoc (runOps (runOp h op) rest).properties k).isSome = _
    rw [ih (runOp h op) k, presence_runOp]
    rfl

/-- Claim C9: over every operation sequence on a fresh store handle, a
key is present in the mapping exactly when it has been drafted and not
since committed or discarded; moreover the handle produced by a commit
of a key no longer holds that key, and an immediate re-commit of the
same key returns `none` instead of invoking the host a second time. -/
theorem mapping_presence_invariant (fn : Option StoreFn) (ops : List Op) (k : URID) :
    (lookupAssoc (runOps (RawStoreHandle.new fn) ops).properties k).isSome = draftedLive k ops ∧
    (∀ (h : RawStoreHandle) (key : URID),
      lookupAssoc ((commit h key).1).properties key = none) ∧
    (∀ (h : RawStoreHandle) (key : URID), (commit (commit h key).1 key).2 = none) := by
  have habsent : ∀ (h : RawStoreHandle) (key : URID),
      lookupAssoc ((commit h key).1).properties key = none := by
    intro h key
    cases hl : lookupAssoc h.properties key with
    | none => simp [commit, hl]
    | some buf => simp [commit, hl, lookup_removeAssoc_self]
  refine ⟨?_, habsent, ?_⟩
  · exact runOps_presence ops (RawStoreHandle.new fn) k
  · intro h key
    have h0 := habsent h key
    set g := (commit h key).1 with hg
    simp [commit, h0]

theorem commit_all_aux_spec (fn : Option StoreFn) (props : List (URID × List Nat)) :
    ((commit_all_aux fn props).2.2 = .ok () →
      (∀ p ∈ props, (commit_pair fn p.1 p.2).2 = .ok ()) ∧
      (commit_all_aux fn props).2.1 =
        (props.map (fun p => (commit_pair fn p.1 p.2).1)).flatten) ∧
    (∀ e : StateErr, (commit_all_aux fn props).2.2 = .error e →
      ∃ pre q post, props = pre ++ q :: post ∧
        (∀ p ∈ pre, (commit_pair fn p.1 p.2).2 = .ok ()) ∧
        (commit_pair fn q.1 q.2).2 = .error e ∧
        (commit_all_aux fn props).2.1 =
          (pre.map (fun p => (commit_pair fn p.1 p.2).1)).flatten
            ++ (commit_pair fn q.1 q.2).1) := by
  induction props with
  | nil =>
    constructor
    · intro _
      exact ⟨by simp, rfl⟩
    · intro e he
      simp [commit_all_aux] at he
  | cons p rest ih =>
    obtain ⟨k, s⟩ := p
    cases hr : (commit_pair fn k s).2 with
    | error e0 =>
      have hcar : commit_all_aux fn ((k, s) :: rest) =
          ([], (commit_pair fn k s).1, .error e0) := by
        simp [commit_all_aux, hr]
      constructor
      · intro hok
        rw [hcar] at hok
        simp at hok
      · intro e he
        rw [hcar] at he
        simp only [Except.error.injEq] at he
        subst he
        exact ⟨[], (k, s), rest, rfl, by simp, hr, by rw [hcar]; simp⟩
    | ok u =>
      cases u
      have hcar : commit_all_aux fn ((k, s) :: rest) =
          ((commit_all_aux fn rest).1,
           (commit_pair fn k s).1 ++ (commit_all_aux fn rest).2.1,
           (commit_all_aux fn rest).2.2) := by
        simp [commit_all_aux, hr]
      constructor
      · intro hok
        rw [hcar] at hok
        obtain ⟨hall, hlog⟩ := ih.1 hok
        constructor
        · intro p hp
          rcases List.mem_cons.mp hp with h1 | h2
          · rw [h1]; exact hr
          · exact hall p h2
        · rw [hcar]
          simp [hlog]
      · intro e he
        rw [hcar] at he
        obtain ⟨pre, q, post, hsplit, hpre, hq, hlog⟩ := ih.2 e he
        refine ⟨(k, s) :: pre, q, post, by rw [hsplit]; rfl, ?_, hq, ?_⟩
        · intro p hp
          rcases List.mem_cons.mp hp with h1 | h2
          · rw [h1]; exact hr
          · exact hpre p h2
        · rw [hcar]
          simp [hlog, List.append_assoc]

/-- Claim C1: `commit_all` attempts to commit every drafted property in
mapping order, stops at the first error and returns it, leaves every
drafted key removed from the mapping whether its commit succeeded or
failed, and keeps the host calls already made before the error (no
rollback): the host-call log is exactly the calls of the successful
prefix followed by the call of the failing property. -/
theorem commit_all_first_error_no_rollback (h : RawStoreHandle) :
    ((commit_all h).2.2 = .ok () →
      (∀ p ∈ h.properties, (commit_pair h.store_fn p.1 p.2).2 = .ok ()) ∧
      (commit_all h).2.1 =
        (h.properties.map (fun p => (commit_pair h.store_fn p.1 p.2).1)).flatten) ∧
    (∀ e : StateErr, (commit_all h).2.2 = .error e →
      ∃ pre q post, h.properties = pre ++ q :: post ∧
        (∀ p ∈ pre, (commit_pair h.store_fn p.1 p.2).2 = .ok ()) ∧
        (commit_pair h.store_fn q.1 q.2).2 = .error e ∧
        (commit_all h).2.1 =
          (pre.map (fun p => (commit_pair h.store_fn p.1 p.2).1)).flatten
            ++ (commit_pair h.store_fn q.1 q.2).1) ∧
    (∀ p ∈ h.properties, lookupAssoc (commit_all h).1.properties p.1 = none) := by
  have ha := commit_all_aux_spec h.store_fn h.properties
  refine ⟨ha.1, ha.2, ?_⟩
  intro p _
  have hh : (commit_all h).1.properties = [] := commit_all_aux_fst h.store_fn h.properties
  rw [hh]
  rfl

/-- Claim C1 witness: with key 1 drafted as a valid integer container
and key 2 drafted empty, `commit_all` fails with `BadData` on key 2,
key 1's already-made host call stays in the log, and the error stops
further attempts. -/
theorem commit_all_first_error_no_rollback_witness :
    ∃ pre q post,
      ([((⟨1, Nat.one_pos⟩ : URID), atomInt 5 7), ((⟨2, Nat.zero_lt_two⟩ : URID), [])]
          : List (URID × List Nat)) = pre ++ q :: post ∧
      (∀ p ∈ pre, (commit_pair (some (fun _ => 0)) p.1 p.2).2 = .ok ()) ∧
      (commit_pair (some (fun _ => 0)) q.1 q.2).2 = .error .badData ∧
      (commit_all ⟨[(⟨1, Nat.one_pos⟩, atomInt 5 7), (⟨2, Nat.zero_lt_two⟩, [])],
          some (fun _ => 0)⟩).2.1 =
        (pre.map (fun p => (commit_pair (some (fun _ => 0)) p.1 p.2).1)).flatten
          ++ (commit_pair (some (fun _ => 0)) q.1 q.2).1 :=
  (commit_all_first_error_no_rollback
      ⟨[(⟨1, Nat.one_pos⟩, atomInt 5 7), (⟨2, Nat.zero_lt_two⟩, [])], some (fun _ => 0)⟩).2.1
    .badData rfl

theorem leU32_encode (t : Nat) :
    leU32 (t % 256) (t / 256 % 256) (t / 65536 % 256) (t / 16777216 % 256) = t % 4294967296 := by
  unfold leU32
  omega

/-- Claim C2: drafting a primitive 32-bit numeric value at a key,
committing it through a host whose store callback records the
(key, type, bytes) triple and succeeds, then retrieving the key from
that host and decoding the read view with the value's type yields the
value back exactly. -/
theorem draft_commit_retrieve_round_trip (T K : URID) (v : Nat)
    (hT : T.get < 4294967296) (hv : v < 4294967296) :
    ∃ log : List StoreArgs,
      (commit (appendDraft (draft (RawStoreHandle.new (some (fun _ => 0))) K) K
          (atomInt T.get v)) K).2 = some (log, Except.ok ()) ∧
      ∃ r : StatePropertyReader,
        retrieve ⟨some (hostRetrieveFn (applyLog [] log))⟩ K = some r ∧
        r.type_ = T ∧ readInt r T = some v := by
  have hstate : appendDraft (draft (RawStoreHandle.new (some (fun _ => 0))) K) K
      (atomInt T.get v) =
      { properties := [(K, atomInt T.get v)], store_fn := some (fun _ => 0) } := by
    simp [RawStoreHandle.new, draft, appendDraft, insertAssoc, lookupAssoc]
  have hsplit : splitAtomHeader (atomInt T.get v) = some (4, T.get, encodeLE32 v) := by
    have e1 := leU32_encode 4
    have e2 := leU32_encode T.get
    show some (leU32 (4 % 256) (4 / 256 % 256) (4 / 65536 % 256) (4 / 16777216 % 256),
        leU32 (T.get % 256) (T.get / 256 % 256) (T.get / 65536 % 256) (T.get / 16777216 % 256),
        encodeLE32 v) = some (4, T.get, encodeLE32 v)
    rw [e1, e2, Nat.mod_eq_of_lt hT]
  have hpair : commit_pair (some (fun _ => 0)) K (atomInt T.get v) =
      ([{ key := K.get, data := encodeLE32 v, size := 4, type_ := T.get, flags := 3 }],
       Except.ok ()) := by
    have hcond : (4 : Nat) ≤ (encodeLE32 v).length := by simp [encodeLE32]
    simp only [commit_pair, hsplit]
    rw [if_pos hcond]
    rfl
  have hhost : hostRetrieveFn [(K.get, (T.get, encodeLE32 v))] K.get =
      { ptr := some (fun i => (encodeLE32 v).getD i 0), size := 4, type_ := T.get } := by
    simp [hostRetrieveFn, lookupStorage, encodeLE32]
  have hbody : (List.range 4).map (fun i => (encodeLE32 v).getD i 0) = encodeLE32 v := rfl
  have hretr : retrieve ⟨some (hostRetrieveFn [(K.get, (T.get, encodeLE32 v))])⟩ K =
      some { type_ := ⟨T.get, T.2⟩, body := encodeLE32 v } := by
    have hpos : 0 < T.get := T.2
    simp only [retrieve, hhost, URID.new]
    rw [dif_pos hpos, hbody]
  have hread : readInt { type_ := ⟨T.get, T.2⟩, body := encodeLE32 v } T = some v := by
    have hTeq : (⟨T.get, T.2⟩ : URID) = T := rfl
    simp only [readInt]
    rw [if_pos hTeq]
    show some (leU32 (v % 256) (v / 256 % 256) (v / 65536 % 256) (v / 16777216 % 256)) = some v
    rw [leU32_encode, Nat.mod_eq_of_lt hv]
  refine ⟨[{ key := K.get, data := encodeLE32 v, size := 4, type_ := T.get, flags := 3 }],
    ?_, { type_ := ⟨T.get, T.2⟩, body := encodeLE32 v }, ?_, rfl, hread⟩
  · rw [hstate]
    simp [commit, lookupAssoc, hpair]
  · exact hretr

/-- Claim C2 witness: drafting the integer 17 with type identifier 5 at
key 1, committing it to a recording host and retrieving it back decodes
to exactly 17. -/
theorem draft_commit_retrieve_round_trip_witness :
    ∃ log : List StoreArgs,
      (commit (appendDraft (draft (RawStoreHandle.new (some (fun _ => 0))) ⟨1, Nat.one_pos⟩)
          ⟨1, Nat.one_pos⟩ (atomInt (URID.get ⟨5, by decide⟩) 17)) ⟨1, Nat.one_pos⟩).2 =
        some (log, Except.ok ()) ∧
      ∃ r : StatePropertyReader,
        retrieve ⟨some (hostRetrieveFn (applyLog [] log))⟩ ⟨1, Nat.one_pos⟩ = some r ∧
        r.type_ = ⟨5, by decide⟩ ∧ readInt r ⟨5, by decide⟩ = some 17 :=
  draft_commit_retrieve_round_trip ⟨5, by decide⟩ ⟨1, Nat.one_pos⟩ 17 (by decide) (by decide)

end LV2State
